import Mathlib

/-!
Verification of `lddcheck` (src/main.rs): the dependency-closure traversal and
symbol-version aggregation engine.  The Rust functions `gather_deps_paths`,
`gather_deps_required_libc_version`, `find_required_glibc_version`, the inline
top-N version selection, the error-report filtering and the exit-code decision
of `main` are shallowly embedded below.  `HashSet`/`HashMap` state is modelled
by duplicate-free lists and association lists in insertion order; the external
collaborators (the `lddtree` dependency graph and the ELF container decoder)
appear as explicit input data, as the spec directs.
-/

namespace Lddcheck

/-- A filesystem path (Rust `PathBuf`), kept as its textual form. -/
abbrev Path := String

/-- Lexicographic comparison of char lists: the order Rust's `String: Ord`
imposes on version strings (byte-lexicographic on UTF-8, which coincides
with code-point lexicographic). -/
def lexLeChars : List Char → List Char → Bool
  | [], _ => true
  | _ :: _, [] => false
  | a :: as, b :: bs =>
    if a < b then true else if b < a then false else lexLeChars as bs

/-- Rust string comparison `a <= b`, as `Vec::<&String>::sort` uses on the
version keys. -/
def strLe (a b : String) : Bool := lexLeChars a.data b.data

/-- Worker for `rustSplit`: scans the haystack left to right, emitting the
piece collected so far (held reversed in `acc`) at each separator
occurrence and resuming after it.  The fuel argument only bounds the
recursion; it exceeds the remaining haystack length at every call. -/
def rustSplitGo (sep : List Char) : Nat → List Char → List Char → List (List Char)
  | 0, _, acc => [acc.reverse]
  | _ + 1, [], acc => [acc.reverse]
  | fuel + 1, c :: rest, acc =>
    if sep.isPrefixOf (c :: rest) then
      acc.reverse :: rustSplitGo sep fuel (List.drop (sep.length - 1) rest) []
    else rustSplitGo sep fuel rest (c :: acc)

/-- Rust `haystack.split(sep)` for a non-empty separator: the pieces of the
haystack between leftmost non-overlapping occurrences of `sep`. -/
def rustSplit (s sep : String) : List String :=
  (rustSplitGo sep.data (s.data.length + 1) s.data []).map (fun cs => String.mk cs)

/-- The components of a path in the sense of Rust's `Path::components`, used
to model the component-wise semantics of `Path::starts_with`: a leading `/`
is the root component, the remaining non-empty `/`-separated pieces follow
(so `"/"` is `["/"]` and `"/lib/libB"` is `["/", "lib", "libB"]`). -/
def pathComponents (p : Path) : List String :=
  (if p.data.head? = some '/' then ["/"] else []) ++
    (rustSplit p "/").filter (fun s => !s.isEmpty)

/-- Rust `path.starts_with(scope)`: `scope`'s components are a prefix of
`p`'s components. -/
def pathStartsWith (p scope : Path) : Bool :=
  (pathComponents scope).isPrefixOf (pathComponents p)

/-- The scope test of src/main.rs line 454:
`scopes.iter().find(|scope| path.starts_with(scope)).is_some()`. -/
def inScope (scopes : List Path) (p : Path) : Bool :=
  scopes.any (fun scope => pathStartsWith p scope)

/-- `lddtree::Library`, the per-library node of the externally resolved
dependency graph: declared path, optional resolved path (`realpath`), and the
names of the libraries it itself needs. -/
structure Library where
  path : Path
  realpath : Option Path
  needed : List String
deriving Repr, DecidableEq

/-- `deps.libraries : HashMap<String, Library>` as an association list with
distinct keys. -/
abbrev Graph := List (String × Library)

/-- `libraries.get(name)` (first matching key). -/
def getLib (g : Graph) (name : String) : Option Library :=
  match g with
  | [] => none
  | (n, lib) :: rest => if n = name then some lib else getLib rest name

/-- `HashSet::insert` on a set stored as a duplicate-free list: no-op when the
element is present, append otherwise. -/
def insertNew [DecidableEq α] (s : List α) (a : α) : List α :=
  if a ∈ s then s else s ++ [a]

/-- `errored : HashMap<PathBuf, (String, HashSet<String>)>` as an association
list: each entry is (file path, error kind, set of referencing names). -/
abbrev ErrorMap := List (Path × String × List String)

/-- The error-recording idiom used at all three error sites
(src/main.rs lines 372-377, 427-438, 460-464):
`errored.entry(p).or_insert((kind, HashSet::new())).1.insert(n)`.
An existing entry keeps its kind and gains the name; a missing entry is
created with the given kind and the singleton name set. -/
def errInsert (e : ErrorMap) (p : Path) (kind n : String) : ErrorMap :=
  match e with
  | [] => [(p, kind, [n])]
  | (q, k, ns) :: rest =>
    if q = p then (q, k, insertNew ns n) :: rest
    else (q, k, ns) :: errInsert rest p kind n

/-- First entry stored for key `p`, as `HashMap::get`. -/
def lookupErr (e : ErrorMap) (p : Path) : Option (String × List String) :=
  match e with
  | [] => none
  | (q, k, ns) :: rest => if q = p then some (k, ns) else lookupErr rest p

/-- Number of records keyed by `p` (1 at most for a well-formed map). -/
def countKey (e : ErrorMap) (p : Path) : Nat :=
  match e with
  | [] => 0
  | (q, _, _) :: rest => (if q = p then 1 else 0) + countKey rest p

/-- The mutable state threaded through `gather_deps_paths`: the per-call scan
set `paths`, the run-global `visited` set, and the error map. -/
structure GState where
  paths : List Path
  visited : List Path
  errored : ErrorMap
deriving Repr, DecidableEq

/-- src/main.rs lines 443-479, `gather_deps_paths`, with explicit fuel standing
for the call stack (the Rust recursion is not obviously terminating on
arbitrary graphs).  Looks `name` up in the graph; a missing name is silently
skipped.  A node with a resolved in-scope path is inserted into `paths` and
`visited`; `!paths.insert(p) || !visited.insert(p)` short-circuits: if `p` is
already in `paths` the function returns with no further change, otherwise `p`
is inserted into `paths` and only then `visited` is consulted, returning (with
`paths` already grown) when `p` was visited before.  A node with no resolved
path records a `not_found` error keyed by its declared path.  In every
non-returning case the function then recurses over the node's `needed` list. -/
def gather_deps_paths (fuel : Nat) (referenced_by name : String)
    (libraries : Graph) (scopes : List Path) (st : GState) : GState :=
  match fuel with
  | 0 => st
  | fuel + 1 =>
    match getLib libraries name with
    | none => st
    | some lib =>
      let step : Bool × GState :=
        match lib.realpath with
        | some path =>
          if inScope scopes path then
            if path ∈ st.paths then (false, st)
            else if path ∈ st.visited then
              (false, { st with paths := st.paths ++ [path] })
            else
              (true, { st with paths := st.paths ++ [path],
                               visited := st.visited ++ [path] })
          else (true, st)
        | none =>
          (true, { st with
            errored := errInsert st.errored lib.path "not_found" referenced_by })
      if step.1 then
        lib.needed.foldl
          (fun acc needed =>
            gather_deps_paths fuel referenced_by needed libraries scopes acc)
          step.2
      else step.2

/-- One symbol-table entry, reduced to the outcome of resolving its name in the
string table: `some name` when `str.get(sym.st_name)` is `Ok(name)`, `none`
when the lookup fails. -/
abbrev SymEntry := Option String

/-- A (symbol table, string table) pair, as the list of its entries' name
lookup outcomes. -/
abbrev SymTab := List SymEntry

/-- One function-name bucket of the aggregation table: the set of contributing
file paths. -/
abbrev FileSet := List Path

/-- version's bucket: function name to file set. -/
abbrev FnMap := List (String × FileSet)

/-- `wants : HashMap<String, HashMap<String, HashSet<PathBuf>>>`:
version to function name to file set. -/
abbrev Wants := List (String × FnMap)

/-- Inner `v.entry(function_name).or_insert(HashSet::new()); v.insert(file)`. -/
def fnMapInsert (m : FnMap) (fn : String) (file : Path) : FnMap :=
  match m with
  | [] => [(fn, [file])]
  | (f, files) :: rest =>
    if f = fn then (f, insertNew files file) :: rest
    else (f, files) :: fnMapInsert rest fn file

/-- src/main.rs lines 366-368: `map.entry(version).or_insert(HashMap::new())`,
then insert the function and file. -/
def wantsInsert (w : Wants) (version fn : String) (file : Path) : Wants :=
  match w with
  | [] => [(version, [(fn, [file])])]
  | (v, m) :: rest =>
    if v = version then (v, fnMapInsert m fn file) :: rest
    else (v, m) :: wantsInsert rest version fn file

/-- The loop body of `find_required_glibc_version` (src/main.rs lines 355-378)
for one symbol entry.  A resolved non-empty name is split on the marker
`"@@GLIBC_"`; `2 ≤ parsed.length` is exactly Rust's
`name.contains("@@GLIBC_")` since the marker is non-empty; a split into
anything other than two parts is silently skipped; otherwise the left part is
the function name and the right part the version.  A failed name lookup
records an error with the empty-string kind, attributed to `referenced_by`. -/
def scanSymbol (referenced_by : String) (from_file : Path)
    (acc : Wants × ErrorMap) (sym : SymEntry) : Wants × ErrorMap :=
  match sym with
  | some name =>
    if name.isEmpty then acc
    else
      let parsed := rustSplit name "@@GLIBC_"
      if 2 ≤ parsed.length then
        match parsed with
        | [function_name, wants] =>
          (wantsInsert acc.1 wants function_name from_file, acc.2)
        | _ => acc
      else acc
  | none => (acc.1, errInsert acc.2 from_file "" referenced_by)

/-- src/main.rs lines 347-379, `find_required_glibc_version`: fold
`scanSymbol` over the entries of one symbol table. -/
def find_required_glibc_version (referenced_by : String) (tab : SymTab)
    (from_file : Path) (map : Wants) (errored : ErrorMap) : Wants × ErrorMap :=
  tab.foldl (scanSymbol referenced_by from_file) (map, errored)

/-- Outcome of `std::fs::read` + `ElfBytes::minimal_parse` +
`find_common_data` on one file, the external container decoder of spec
section 6: the read fails, the parse fails, `find_common_data` fails (silently
skipped by the code), or decoding succeeds with an optional
(dynsym, dynstr) pair and an optional (symtab, strtab) pair. -/
inductive FileOutcome where
  | readErr : FileOutcome
  | parseErr : FileOutcome
  | commonErr : FileOutcome
  | parsed : Option SymTab → Option SymTab → FileOutcome

/-- The filesystem and decoder, as a map from path to outcome. -/
abbrev FsModel := Path → FileOutcome

/-- The per-path loop body of `gather_deps_required_libc_version`
(src/main.rs lines 400-440).  A failed read records `cannot_read`, a failed
parse records `cannot_parse` — both keyed by the file and attributed to
`name` (the needed-library name argument, NOT `referenced_by`; see lines 431
and 438).  On success each present table pair is scanned independently. -/
def scanFile (fsm : FsModel) (referenced_by name : String) (lib_path : Path)
    (acc : Wants × ErrorMap) : Wants × ErrorMap :=
  match fsm lib_path with
  | .readErr => (acc.1, errInsert acc.2 lib_path "cannot_read" name)
  | .parseErr => (acc.1, errInsert acc.2 lib_path "cannot_parse" name)
  | .commonErr => acc
  | .parsed dyn stat =>
    let acc1 :=
      match dyn with
      | some tab => find_required_glibc_version referenced_by tab lib_path acc.1 acc.2
      | none => acc
    match stat with
    | some tab => find_required_glibc_version referenced_by tab lib_path acc1.1 acc1.2
    | none => acc1

/-- The run-global state of `main`: the aggregation table, the visited set,
the error map, and a ghost log `scanned` recording, in order, every path the
per-path scanning loop of `gather_deps_required_libc_version` is invoked on. -/
structure RunState where
  wants : Wants
  visited : List Path
  errored : ErrorMap
  scanned : List Path

/-- src/main.rs lines 381-441, `gather_deps_required_libc_version`: collect
the closure paths into a FRESH `paths` set (line 390) sharing `visited` and
`errored` with the caller, then scan every collected path. -/
def gather_deps_required_libc_version (fuel : Nat) (fsm : FsModel)
    (referenced_by name : String) (libraries : Graph) (scopes : List Path)
    (rs : RunState) : RunState :=
  let g := gather_deps_paths fuel referenced_by name libraries scopes
    ⟨[], rs.visited, rs.errored⟩
  let we := g.paths.foldl (fun acc p => scanFile fsm referenced_by name p acc)
    (rs.wants, g.errored)
  ⟨we.1, g.visited, we.2, rs.scanned ++ g.paths⟩

/-- One `-p` root as `main` sees it after the external `DependencyAnalyzer`
ran: the argument string (which is also the `referenced_by` passed down), the
root's direct needs, and the resolved graph. -/
structure RootInput where
  pathname : String
  needed : List String
  libraries : Graph

/-- The double loop of `main` (src/main.rs lines 176-189) from a given
state: for each root, for each direct need, run the gather-and-scan pass. -/
def runAllFrom (fuel : Nat) (fsm : FsModel) (roots : List RootInput)
    (scopes : List Path) (rs : RunState) : RunState :=
  roots.foldl (fun acc root =>
    root.needed.foldl (fun acc2 n =>
      gather_deps_required_libc_version fuel fsm root.pathname n
        root.libraries scopes acc2) acc) rs

/-- A whole run of `main`, starting from the empty maps of lines 159-174. -/
def runAll (fuel : Nat) (fsm : FsModel) (roots : List RootInput)
    (scopes : List Path) : RunState :=
  runAllFrom fuel fsm roots scopes ⟨[], [], [], []⟩

/-- The top-N version selection that `main` performs identically in all three
detail branches (src/main.rs lines 192-199, 214-221, 250-257):
`versions.sort(); versions.reverse();` then take the first `n`. -/
def select_top_n (versions : List String) (n : Nat) : List String :=
  ((versions.mergeSort strLe).reverse).take n

/-- src/main.rs lines 334-343: the run exits non-zero iff `errored` is
non-empty and some user-supplied root path is a key of `errored`. -/
def runFails (rootPaths : List Path) (errored : ErrorMap) : Bool :=
  !errored.isEmpty &&
    rootPaths.any (fun x => errored.any (fun r => decide (r.1 = x)))

/-- The `PrintError::All` catch-all report (src/main.rs lines 292-303): one
(path, kind, name) line per referencing name of every record. -/
def errorLinesAll (e : ErrorMap) : List (Path × String × String) :=
  e.flatMap (fun r => r.2.2.map (fun n => (r.1, r.2.1, n)))

/-- The kind-specific report branches (src/main.rs lines 304-330): lines only
for records whose kind equals the filter string (`"cannot_parse"`,
`"cannot_read"` or `"not_found"`). -/
def errorLinesKind (kind : String) (e : ErrorMap) : List (Path × String × String) :=
  e.flatMap (fun r =>
    if r.2.1 = kind then r.2.2.map (fun n => (r.1, r.2.1, n)) else [])

/-! Concrete inputs used by the counterexamples and witnesses. -/

/-- Diamond graph: the root's two direct needs B and C share the
sub-dependency D; all three resolve under `/lib`. -/
def diamondGraph : Graph :=
  [("B", ⟨"/B", some "/lib/libB", ["D"]⟩),
   ("C", ⟨"/C", some "/lib/libC", ["D"]⟩),
   ("D", ⟨"/D", some "/lib/libD", []⟩)]

/-- A filesystem on which every file decodes with no symbol tables. -/
def trivialFs : FsModel := fun _ => .parsed none none

/-- A root whose direct needs are B and C, resolved to `diamondGraph`. -/
def diamondRoot : RootInput := ⟨"app", ["B", "C"], diamondGraph⟩

/-- X resolves outside scope `/usr` and needs Y, which resolves inside it. -/
def outOfScopeGraph : Graph :=
  [("X", ⟨"/X", some "/opt/libX", ["Y"]⟩),
   ("Y", ⟨"/Y", some "/usr/libY", []⟩)]

/-- X has no resolved path but a non-empty needed list naming Y, which
resolves. -/
def unresolvedParentGraph : Graph :=
  [("X", ⟨"/declX", none, ["Y"]⟩),
   ("Y", ⟨"/declY", some "/lib/libY", []⟩)]

/-- A single resolved library B. -/
def singleLibGraph : Graph := [("B", ⟨"/B", some "/lib/libB", []⟩)]

/-- A filesystem on which every read fails. -/
def readErrFs : FsModel := fun _ => .readErr

/-- A filesystem on which every parse fails. -/
def parseErrFs : FsModel := fun _ => .parseErr

/-- Monotone evolution of the error map across a piece of the run: every
existing record keeps its kind and only gains referencing names, and no key
ends up with more than one record unless it already had more than one. -/
def ErrPres (e e' : ErrorMap) : Prop :=
  (∀ p k ns, lookupErr e p = some (k, ns) →
    ∃ ns', lookupErr e' p = some (k, ns') ∧ ns ⊆ ns') ∧
  (∀ q, countKey e' q ≤ max 1 (countKey e q))

/-! Helper lemmas about the set and map operations. -/

theorem mem_insertNew_self [DecidableEq α] (s : List α) (a : α) :
    a ∈ insertNew s a := by
  unfold insertNew
  split
  · assumption
  · simp

theorem subset_insertNew [DecidableEq α] (s : List α) (a : α) :
    s ⊆ insertNew s a := by
  unfold insertNew
  split
  · exact fun x hx => hx
  · exact fun x hx => List.mem_append_left _ hx

theorem lookupErr_errInsert_self_none {e : ErrorMap} {p : Path}
    (h : lookupErr e p = none) (k n : String) :
    lookupErr (errInsert e p k n) p = some (k, [n]) := by
  induction e with
  | nil => simp [errInsert, lookupErr]
  | cons r rest ih =>
    obtain ⟨q, k0, ns⟩ := r
    by_cases hq : q = p
    · simp [lookupErr, hq] at h
    · simp only [lookupErr, hq, if_false] at h
      simp [errInsert, lookupErr, hq, ih h]

theorem lookupErr_errInsert_self_some {e : ErrorMap} {p : Path}
    {k0 : String} {ns : List String}
    (h : lookupErr e p = some (k0, ns)) (k n : String) :
    lookupErr (errInsert e p k n) p = some (k0, insertNew ns n) := by
  induction e with
  | nil => simp [lookupErr] at h
  | cons r rest ih =>
    obtain ⟨q, k1, ns1⟩ := r
    by_cases hq : q = p
    · subst hq
      simp only [lookupErr, if_true] at h
      simp only [Option.some.injEq, Prod.mk.injEq] at h
      obtain ⟨h1, h2⟩ := h
      subst h1
      subst h2
      simp [errInsert, lookupErr]
    · simp only [lookupErr, hq, if_false] at h
      simp [errInsert, lookupErr, hq, ih h]

theorem lookupErr_errInsert_ne {e : ErrorMap} {p q : Path} (hne : q ≠ p)
    (k n : String) : lookupErr (errInsert e p k n) q = lookupErr e q := by
  induction e with
  | nil => simp [errInsert, lookupErr, Ne.symm hne]
  | cons r rest ih =>
    obtain ⟨q1, k1, ns1⟩ := r
    by_cases hq : q1 = p
    · subst hq
      simp [errInsert, lookupErr, Ne.symm hne]
    · simp [errInsert, lookupErr, hq, ih]

theorem countKey_errInsert_self (e : ErrorMap) (p : Path) (k n : String) :
    countKey (errInsert e p k n) p = max 1 (countKey e p) := by
  induction e with
  | nil => simp [errInsert, countKey]
  | cons r rest ih =>
    obtain ⟨q, k1, ns1⟩ := r
    by_cases hq : q = p
    · subst hq
      simp only [errInsert, countKey, eq_self_iff_true, if_true]
      omega
    · simp only [errInsert, hq, if_false, countKey, ih]
      omega

theorem countKey_errInsert_ne {p q : Path} (e : ErrorMap) (hne : q ≠ p)
    (k n : String) : countKey (errInsert e p k n) q = countKey e q := by
  induction e with
  | nil => simp [errInsert, countKey, Ne.symm hne]
  | cons r rest ih =>
    obtain ⟨q1, k1, ns1⟩ := r
    by_cases hq : q1 = p
    · subst hq
      simp only [errInsert, if_pos rfl, countKey]
    · simp only [errInsert, hq, if_false, countKey, ih]

theorem countKey_pos_of_lookupErr {e : ErrorMap} {p : Path} {x : String × List String}
    (h : lookupErr e p = some x) : 1 ≤ countKey e p := by
  induction e with
  | nil => simp [lookupErr] at h
  | cons r rest ih =>
    obtain ⟨q, k1, ns1⟩ := r
    by_cases hq : q = p
    · simp [countKey, hq]
    · simp only [lookupErr, hq, if_false] at h
      have := ih h
      simp only [countKey, hq, if_false]
      omega

theorem errPres_refl (e : ErrorMap) : ErrPres e e :=
  ⟨fun _ _ ns h => ⟨ns, h, fun _ hx => hx⟩, fun q => by omega⟩

theorem errPres_trans {e1 e2 e3 : ErrorMap} (h12 : ErrPres e1 e2)
    (h23 : ErrPres e2 e3) : ErrPres e1 e3 := by
  refine ⟨fun p k ns h => ?_, fun q => ?_⟩
  · obtain ⟨ns2, hl2, hs2⟩ := h12.1 p k ns h
    obtain ⟨ns3, hl3, hs3⟩ := h23.1 p k ns2 hl2
    exact ⟨ns3, hl3, fun x hx => hs3 (hs2 hx)⟩
  · have := h12.2 q
    have := h23.2 q
    omega

theorem errPres_errInsert (e : ErrorMap) (p : Path) (k n : String) :
    ErrPres e (errInsert e p k n) := by
  refine ⟨fun p0 k0 ns0 h => ?_, fun q => ?_⟩
  · by_cases hp : p0 = p
    · subst hp
      exact ⟨insertNew ns0 n, lookupErr_errInsert_self_some h k n,
        subset_insertNew ns0 n⟩
    · exact ⟨ns0, (lookupErr_errInsert_ne hp k n).trans h, fun _ hx => hx⟩
  · by_cases hq : q = p
    · subst hq
      rw [countKey_errInsert_self]
    · rw [countKey_errInsert_ne e hq k n]
      omega

/-- A fold preserves any reflexive transitive relation its step respects. -/
theorem foldl_rel {α β : Type _} {R : β → β → Prop} {f : β → α → β}
    (hrefl : ∀ b, R b b) (htrans : ∀ a b c, R a b → R b c → R a c)
    (hstep : ∀ b a, R b (f b a)) :
    ∀ (l : List α) (b : β), R b (l.foldl f b) := by
  intro l
  induction l with
  | nil => exact fun b => hrefl b
  | cons a t ih =>
    exact fun b => htrans _ _ _ (hstep b a) (ih (f b a))

/-- Constraint propagation through the whole closure walk: the traversal only
ever touches `errored` through `errInsert`, so existing records keep their
kinds, their name sets grow, and single-record keys stay single. -/
theorem gather_deps_paths_errPres (fuel : Nat) :
    ∀ (rb name : String) (g : Graph) (scopes : List Path) (st : GState),
    ErrPres st.errored (gather_deps_paths fuel rb name g scopes st).errored := by
  induction fuel with
  | zero =>
    intro rb name g scopes st
    exact errPres_refl _
  | succ fuel ih =>
    intro rb name g scopes st
    have hfold : ∀ (l : List String) (st1 : GState),
        ErrPres st1.errored
          ((l.foldl (fun acc needed =>
            gather_deps_paths fuel rb needed g scopes acc) st1)).errored :=
      fun l st1 =>
        @foldl_rel String GState (fun s s' => ErrPres s.errored s'.errored)
          (fun acc needed => gather_deps_paths fuel rb needed g scopes acc)
          (fun s => errPres_refl s.errored)
          (fun _ _ _ h1 h2 => errPres_trans h1 h2)
          (fun s nd => ih rb nd g scopes s) l st1
    cases hg : getLib g name with
    | none => simp only [gather_deps_paths, hg]; exact errPres_refl _
    | some lib =>
      cases hrp : lib.realpath with
      | none =>
        simp only [gather_deps_paths, hg, hrp, eq_self_iff_true, if_true]
        exact errPres_trans (errPres_errInsert st.errored lib.path "not_found" rb)
          (hfold lib.needed
            ⟨st.paths, st.visited, errInsert st.errored lib.path "not_found" rb⟩)
      | some path =>
        simp only [gather_deps_paths, hg, hrp]
        cases hsc : inScope scopes path with
        | false =>
          simp only [Bool.false_eq_true, if_false, eq_self_iff_true, if_true]
          exact hfold lib.needed st
        | true =>
          simp only [eq_self_iff_true, if_true]
          by_cases hmem : path ∈ st.paths
          · simp only [hmem, if_true, Bool.false_eq_true, if_false]
            exact errPres_refl _
          · simp only [hmem, if_false]
            by_cases hvis : path ∈ st.visited
            · simp only [hvis, if_true, Bool.false_eq_true, if_false]
              exact errPres_refl _
            · simp only [hvis, if_false, eq_self_iff_true, if_true]
              exact hfold lib.needed
                ⟨st.paths ++ [path], st.visited ++ [path], st.errored⟩

/-- One symbol entry only leaves the error map alone or performs an
`errInsert`. -/
theorem scanSymbol_errPres (rb : String) (f : Path) (acc : Wants × ErrorMap)
    (sym : SymEntry) : ErrPres acc.2 (scanSymbol rb f acc sym).2 := by
  cases sym with
  | none => exact errPres_errInsert acc.2 f "" rb
  | some name =>
    simp only [scanSymbol]
    repeat' split
    all_goals exact errPres_refl _

theorem find_required_glibc_version_errPres (rb : String) (tab : SymTab)
    (f : Path) (w : Wants) (e : ErrorMap) :
    ErrPres e (find_required_glibc_version rb tab f w e).2 :=
  @foldl_rel SymEntry (Wants × ErrorMap) (fun a b => ErrPres a.2 b.2)
    (scanSymbol rb f)
    (fun acc => errPres_refl acc.2) (fun _ _ _ h1 h2 => errPres_trans h1 h2)
    (scanSymbol_errPres rb f) tab (w, e)

theorem scanFile_errPres (fsm : FsModel) (rb name : String) (p : Path)
    (acc : Wants × ErrorMap) : ErrPres acc.2 (scanFile fsm rb name p acc).2 := by
  simp only [scanFile]
  cases fsm p with
  | readErr => exact errPres_errInsert acc.2 p "cannot_read" name
  | parseErr => exact errPres_errInsert acc.2 p "cannot_parse" name
  | commonErr => exact errPres_refl _
  | parsed dyn stat =>
    have h1 : ErrPres acc.2
        (match dyn with
          | some tab => find_required_glibc_version rb tab p acc.1 acc.2
          | none => acc).2 := by
      cases dyn with
      | none => exact errPres_refl _
      | some tab => exact find_required_glibc_version_errPres rb tab p acc.1 acc.2
    cases stat with
    | none => exact h1
    | some tab =>
      exact errPres_trans h1 (find_required_glibc_version_errPres rb tab p _ _)

theorem gather_deps_required_libc_version_errPres (fuel : Nat) (fsm : FsModel)
    (rb name : String) (g : Graph) (scopes : List Path) (rs : RunState) :
    ErrPres rs.errored
      (gather_deps_required_libc_version fuel fsm rb name g scopes rs).errored := by
  have h1 := gather_deps_paths_errPres fuel rb name g scopes ⟨[], rs.visited, rs.errored⟩
  have h2 :=
    @foldl_rel Path (Wants × ErrorMap) (fun a b => ErrPres a.2 b.2)
      (fun acc p => scanFile fsm rb name p acc)
      (fun acc => errPres_refl acc.2) (fun _ _ _ ha hb => errPres_trans ha hb)
      (fun acc p => scanFile_errPres fsm rb name p acc)
      (gather_deps_paths fuel rb name g scopes ⟨[], rs.visited, rs.errored⟩).paths
      (rs.wants,
        (gather_deps_paths fuel rb name g scopes ⟨[], rs.visited, rs.errored⟩).errored)
  simp only [gather_deps_required_libc_version]
  exact errPres_trans h1 h2

theorem runAllFrom_errPres (fuel : Nat) (fsm : FsModel) (roots : List RootInput)
    (scopes : List Path) (rs : RunState) :
    ErrPres rs.errored (runAllFrom fuel fsm roots scopes rs).errored := by
  refine @foldl_rel RootInput RunState (fun s s' => ErrPres s.errored s'.errored)
    _ (fun s => errPres_refl s.errored)
    (fun _ _ _ h1 h2 => errPres_trans h1 h2) (fun s root => ?_) roots rs
  exact @foldl_rel String RunState (fun s s' => ErrPres s.errored s'.errored)
    _ (fun s2 => errPres_refl s2.errored)
    (fun _ _ _ h1 h2 => errPres_trans h1 h2)
    (fun s2 n => gather_deps_required_libc_version_errPres fuel fsm
      root.pathname n root.libraries scopes s2) root.needed s

/-- Unfolding equation of `gather_deps_paths` at a node whose resolved path is
outside every scope: no error is recorded, nothing is inserted into the scan
set or the visited set, and the walk proceeds directly into the node's needed
list from the unchanged state. -/
theorem gather_deps_paths_out_of_scope {g : Graph} {name : String}
    {lib : Library} {path : Path} {scopes : List Path}
    (hg : getLib g name = some lib) (hrp : lib.realpath = some path)
    (hsc : inScope scopes path = false)
    (fuel : Nat) (rb : String) (st : GState) :
    gather_deps_paths (fuel + 1) rb name g scopes st =
      lib.needed.foldl
        (fun acc needed => gather_deps_paths fuel rb needed g scopes acc) st := by
  simp only [gather_deps_paths, hg, hrp, hsc, Bool.false_eq_true, if_false,
    eq_self_iff_true, if_true]

/-- Unfolding equation of `gather_deps_paths` at a node present in the graph
but with no resolved path: a `not_found` record is made for the node's
declared path, attributed to `referenced_by`, and the walk then still
recurses over the node's needed list. -/
theorem gather_deps_paths_unresolved {g : Graph} {name : String}
    {lib : Library}
    (hg : getLib g name = some lib) (hrp : lib.realpath = none)
    (fuel : Nat) (rb : String) (scopes : List Path) (st : GState) :
    gather_deps_paths (fuel + 1) rb name g scopes st =
      lib.needed.foldl
        (fun acc needed => gather_deps_paths fuel rb needed g scopes acc)
        ⟨st.paths, st.visited, errInsert st.errored lib.path "not_found" rb⟩ := by
  simp only [gather_deps_paths, hg, hrp, eq_self_iff_true, if_true]

/-- The recursion over a needed list preserves `ErrPres` from any starting
state. -/
theorem gather_deps_paths_foldl_errPres (fuel : Nat) (rb : String) (g : Graph)
    (scopes : List Path) (l : List String) (st : GState) :
    ErrPres st.errored
      ((l.foldl (fun acc needed =>
        gather_deps_paths fuel rb needed g scopes acc) st)).errored :=
  @foldl_rel String GState (fun s s' => ErrPres s.errored s'.errored)
    (fun acc needed => gather_deps_paths fuel rb needed g scopes acc)
    (fun s => errPres_refl s.errored) (fun _ _ _ h1 h2 => errPres_trans h1 h2)
    (fun s nd => gather_deps_paths_errPres fuel rb nd g scopes s) l st

/-- C1: the claim fails on the code.  In the diamond graph (the root needs B
and C, each of which needs D) with everything in scope, the shared
sub-dependency `/lib/libD` enters two distinct per-call scan sets and the
symbol-version scan runs on it twice in the run, even though the visited set
holds it only once: each `gather_deps_required_libc_version` call starts a
fresh `paths` set, and `!paths.insert(path) || !visited.insert(path)` grows
`paths` before the visited check can cut the call short. -/
theorem c1_shared_dep_scanned_twice :
    ((runAll 10 trivialFs [diamondRoot] ["/"]).scanned.count "/lib/libD") = 2 ∧
    ((runAll 10 trivialFs [diamondRoot] ["/"]).visited.count "/lib/libD") = 1 ∧
    (runAll 10 trivialFs [diamondRoot] ["/"]).scanned =
      ["/lib/libB", "/lib/libD", "/lib/libC", "/lib/libD"] := by
  exact ⟨rfl, rfl, rfl⟩

/-- C2: a node whose resolved path is outside every scope prefix records no
error and inserts nothing, yet the walk still recurses into its needed list
(the general unfolding equation); concretely, the in-scope library
`/usr/libY`, reachable only through the out-of-scope `/opt/libX`, is still
discovered and scanned. -/
theorem c2_scope_gates_scanning_not_traversal :
    (∀ (fuel : Nat) (rb name : String) (g : Graph) (scopes : List Path)
      (st : GState) (lib : Library) (path : Path),
      getLib g name = some lib → lib.realpath = some path →
      inScope scopes path = false →
      gather_deps_paths (fuel + 1) rb name g scopes st =
        lib.needed.foldl
          (fun acc needed => gather_deps_paths fuel rb needed g scopes acc) st) ∧
    (gather_deps_required_libc_version 10 trivialFs "app" "X" outOfScopeGraph
      ["/usr"] ⟨[], [], [], []⟩).scanned = ["/usr/libY"] := by
  constructor
  · intro fuel rb name g scopes st lib path hg hrp hsc
    exact gather_deps_paths_out_of_scope hg hrp hsc fuel rb st
  · rfl

/-- C2 witness: the equation instantiated on the concrete out-of-scope graph,
with every hypothesis discharged by computation. -/
theorem c2_witness :
    gather_deps_paths 4 "app" "X" outOfScopeGraph ["/usr"] ⟨[], [], []⟩ =
      ["Y"].foldl
        (fun acc needed =>
          gather_deps_paths 3 "app" needed outOfScopeGraph ["/usr"] acc)
        ⟨[], [], []⟩ :=
  c2_scope_gates_scanning_not_traversal.1 3 "app" "X" outOfScopeGraph ["/usr"]
    ⟨[], [], []⟩ ⟨"/X", some "/opt/libX", ["Y"]⟩ "/opt/libX" rfl rfl rfl

/-- C5 counterexample: the claim says the collector "does not recurse into
that node's needed list" for a node with no resolved path.  On
`unresolvedParentGraph`, after recording the `not_found` record for X, the
code recurses into X's needed list and discovers Y's resolved path, so the
scan set is not empty as the claim would force. -/
theorem c5_counterexample :
    (gather_deps_paths 10 "app" "X" unresolvedParentGraph ["/"]
      ⟨[], [], []⟩).errored = [("/declX", "not_found", ["app"])] ∧
    (gather_deps_paths 10 "app" "X" unresolvedParentGraph ["/"]
      ⟨[], [], []⟩).paths = ["/lib/libY"] := by
  exact ⟨rfl, rfl⟩

/-- C5 amended: for a graph node with no resolved path the collector records
a not-found error keyed by the node's declared path and attributed to
`referenced_by` (a fresh record when the path had none), and then STILL
recurses into the node's needed list — the recursion is unconditional for
every node found in the graph. -/
theorem c5_unresolved_records_error_and_recurses (fuel : Nat)
    (rb name : String) (g : Graph) (scopes : List Path) (st : GState)
    (lib : Library) (hg : getLib g name = some lib)
    (hrp : lib.realpath = none) :
    gather_deps_paths (fuel + 1) rb name g scopes st =
      lib.needed.foldl
        (fun acc needed => gather_deps_paths fuel rb needed g scopes acc)
        ⟨st.paths, st.visited, errInsert st.errored lib.path "not_found" rb⟩ ∧
    (lookupErr st.errored lib.path = none →
      lookupErr (errInsert st.errored lib.path "not_found" rb) lib.path =
        some ("not_found", [rb])) := by
  refine ⟨gather_deps_paths_unresolved hg hrp fuel rb scopes st, fun h => ?_⟩
  exact lookupErr_errInsert_self_none h "not_found" rb

/-- C5 witness: the amended statement instantiated on the concrete graph. -/
theorem c5_witness :
    gather_deps_paths 10 "app" "X" unresolvedParentGraph ["/"] ⟨[], [], []⟩ =
      ["Y"].foldl
        (fun acc needed =>
          gather_deps_paths 9 "app" needed unresolvedParentGraph ["/"] acc)
        ⟨[], [], errInsert [] "/declX" "not_found" "app"⟩ ∧
    lookupErr (errInsert [] "/declX" "not_found" "app") "/declX" =
      some ("not_found", ["app"]) := by
  have h := c5_unresolved_records_error_and_recurses 9 "app" "X"
    unresolvedParentGraph ["/"] ⟨[], [], []⟩ ⟨"/declX", none, ["Y"]⟩ rfl rfl
  exact ⟨h.1, h.2 rfl⟩

/-- C7 counterexample: the claim says read/parse failures are attributed to
`referenced_by`.  With `referenced_by = "rootapp"` and needed-library name
`"B"`, a read failure on B's resolved path produces a record whose name set
is exactly the needed-library name, and the referencing root is absent. -/
theorem c7_counterexample :
    (gather_deps_required_libc_version 10 readErrFs "rootapp" "B"
      singleLibGraph ["/"] ⟨[], [], [], []⟩).errored =
      [("/lib/libB", "cannot_read", ["B"])] ∧
    ("rootapp" : String) ∉ (["B"] : List String) := by
  exact ⟨rfl, by decide⟩

/-- C7 amended: a read failure on a scan-set file records a `cannot_read`
record and a parse failure a `cannot_parse` record, both keyed by the file
and attributed to `name` — the needed-library name whose closure is being
scanned — not to `referenced_by`. -/
theorem c7_read_parse_errors_attributed_to_name (fsm : FsModel)
    (rb name : String) (p : Path) (w : Wants) (e : ErrorMap) :
    (fsm p = .readErr →
      scanFile fsm rb name p (w, e) = (w, errInsert e p "cannot_read" name)) ∧
    (fsm p = .parseErr →
      scanFile fsm rb name p (w, e) = (w, errInsert e p "cannot_parse" name)) := by
  constructor
  · intro h
    simp [scanFile, h]
  · intro h
    simp [scanFile, h]

theorem lexLeChars_total : ∀ as bs, (lexLeChars as bs || lexLeChars bs as) = true := by
  intro as
  induction as with
  | nil =>
    intro bs
    simp [lexLeChars]
  | cons a as ih =>
    intro bs
    cases bs with
    | nil => simp [lexLeChars]
    | cons b bs =>
      rcases lt_trichotomy a b with h | h | h
      · simp [lexLeChars, h]
      · subst h
        simp [lexLeChars, lt_irrefl, ih bs]
      · simp [lexLeChars, h, lt_asymm h]

theorem lexLeChars_trans :
    ∀ as bs cs, lexLeChars as bs = true → lexLeChars bs cs = true →
      lexLeChars as cs = true := by
  intro as
  induction as with
  | nil =>
    intro bs cs h1 h2
    simp [lexLeChars]
  | cons a as ih =>
    intro bs cs h1 h2
    cases bs with
    | nil => simp [lexLeChars] at h1
    | cons b bs =>
      cases cs with
      | nil => simp [lexLeChars] at h2
      | cons c cs =>
        rcases lt_trichotomy a b with hab | hab | hab
        · rcases lt_trichotomy b c with hbc | hbc | hbc
          · simp [lexLeChars, lt_trans hab hbc]
          · subst hbc
            simp [lexLeChars, hab]
          · simp [lexLeChars, lt_asymm hbc, hbc] at h2
        · subst hab
          rcases lt_trichotomy a c with hac | hac | hac
          · simp [lexLeChars, hac]
          · subst hac
            simp only [lexLeChars, lt_irrefl, if_false] at h1 h2 ⊢
            exact ih bs cs h1 h2
          · simp [lexLeChars, lt_asymm hac, hac] at h2
        · simp [lexLeChars, lt_asymm hab, hab] at h1

theorem strLe_trans (a b c : String) (h1 : strLe a b = true)
    (h2 : strLe b c = true) : strLe a c = true :=
  lexLeChars_trans a.data b.data c.data h1 h2

theorem strLe_total (a b : String) : (strLe a b || strLe b a) = true :=
  lexLeChars_total a.data b.data

/-- C7 witness: both amended branches at concrete inputs. -/
theorem c7_witness :
    readErrFs "/lib/libB" = FileOutcome.readErr ∧
    scanFile readErrFs "rootapp" "B" "/lib/libB" ([], []) =
      ([], errInsert [] "/lib/libB" "cannot_read" "B") ∧
    parseErrFs "/lib/libB" = FileOutcome.parseErr ∧
    scanFile parseErrFs "rootapp" "B" "/lib/libB" ([], []) =
      ([], errInsert [] "/lib/libB" "cannot_parse" "B") :=
  ⟨rfl, (c7_read_parse_errors_attributed_to_name readErrFs "rootapp" "B"
      "/lib/libB" [] []).1 rfl, rfl,
    (c7_read_parse_errors_attributed_to_name parseErrFs "rootapp" "B"
      "/lib/libB" [] []).2 rfl⟩

unseal List.merge List.mergeSort in
/-- C3: `select_top_n` returns the table's distinct version strings in
descending lexicographic string order (raw string sort, reversed, not
numeric), it is a pure read (repeated calls agree), `n` larger than the
number of distinct versions returns all of them, and on
["2.2", "2.17", "2.4"] it returns ["2.4", "2.2", "2.17"]. -/
theorem c3_select_top_n_spec :
    (∀ (versions : List String) (n : Nat),
      List.Sorted (fun a b => strLe b a = true) (select_top_n versions n)) ∧
    (∀ (versions : List String) (n : Nat), versions.Nodup →
      (select_top_n versions n).Nodup) ∧
    (∀ (versions : List String) (n : Nat), versions.length ≤ n →
      (select_top_n versions n).Perm versions) ∧
    select_top_n ["2.2", "2.17", "2.4"] 3 = ["2.4", "2.2", "2.17"] ∧
    (∀ (versions : List String) (n : Nat),
      select_top_n versions n = select_top_n versions n) := by
  refine ⟨?_, ?_, ?_, ?_, fun versions n => rfl⟩
  · intro versions n
    have hs : List.Pairwise (fun a b => strLe a b = true)
        (versions.mergeSort strLe) :=
      List.sorted_mergeSort strLe_trans strLe_total versions
    have hr : List.Pairwise (fun a b => strLe b a = true)
        ((versions.mergeSort strLe).reverse) :=
      List.pairwise_reverse.mpr hs
    exact List.Pairwise.sublist (List.take_sublist n _) hr
  · intro versions n hnd
    have h1 : (versions.mergeSort strLe).Nodup :=
      (versions.mergeSort_perm strLe).symm.nodup hnd
    have h2 : ((versions.mergeSort strLe).reverse).Nodup :=
      List.nodup_reverse.mpr h1
    exact List.Nodup.sublist (List.take_sublist n _) h2
  · intro versions n hlen
    have hl : ((versions.mergeSort strLe).reverse).length = versions.length := by
      rw [List.length_reverse, List.length_mergeSort]
    show (((versions.mergeSort strLe).reverse).take n).Perm versions
    rw [List.take_of_length_le (by rw [hl]; exact hlen)]
    exact ((versions.mergeSort strLe).reverse_perm).trans
      (versions.mergeSort_perm strLe)
  · rfl

unseal List.merge List.mergeSort in
/-- C3 witness: the Nodup and the n-larger-than-table conjuncts discharged at
distinct concrete versions with n = 5 > 3. -/
theorem c3_witness :
    (["2.2", "2.17", "2.4"] : List String).Nodup ∧
    (select_top_n ["2.2", "2.17", "2.4"] 5).Nodup ∧
    (["2.2", "2.17", "2.4"] : List String).length ≤ 5 ∧
    (select_top_n ["2.2", "2.17", "2.4"] 5).Perm ["2.2", "2.17", "2.4"] :=
  ⟨by decide,
    c3_select_top_n_spec.2.1 ["2.2", "2.17", "2.4"] 5 (by decide),
    by decide,
    c3_select_top_n_spec.2.2.1 ["2.2", "2.17", "2.4"] 5 (by decide)⟩

/-- C4: a symbol whose resolved name splits on "@@GLIBC_" into exactly two
parts emits a requirement whose function name is the left part and version
the right part ("memcpy@@GLIBC_2.14" gives version "2.14" and function
"memcpy"); a split into three or more parts is silently skipped with no
error; a name without the marker ("local_helper") yields nothing. -/
theorem c4_symbol_tag_parsing :
    (∀ (rb : String) (f : Path) (w : Wants) (e : ErrorMap),
      find_required_glibc_version rb [some "memcpy@@GLIBC_2.14"] f w e =
        (wantsInsert w "2.14" "memcpy" f, e)) ∧
    (∀ (rb : String) (f : Path) (w : Wants) (e : ErrorMap) (name : String),
      3 ≤ (rustSplit name "@@GLIBC_").length →
      find_required_glibc_version rb [some name] f w e = (w, e)) ∧
    (∀ (rb : String) (f : Path) (w : Wants) (e : ErrorMap),
      find_required_glibc_version rb [some "local_helper"] f w e = (w, e)) := by
  refine ⟨fun rb f w e => rfl, ?_, fun rb f w e => rfl⟩
  intro rb f w e name h
  have hne : name.isEmpty = false := by
    cases hn : name.isEmpty
    · rfl
    · exfalso
      have hempty : name = "" := (String.isEmpty_iff name).mp hn
      subst hempty
      have : rustSplit "" "@@GLIBC_" = [""] := rfl
      rw [this] at h
      simp at h
  simp only [find_required_glibc_version, List.foldl_cons, List.foldl_nil,
    scanSymbol, hne, Bool.false_eq_true, if_false]
  rw [if_pos (by omega : 2 ≤ (rustSplit name "@@GLIBC_").length)]
  cases hp : rustSplit name "@@GLIBC_" with
  | nil => rfl
  | cons a t =>
    cases t with
    | nil => rfl
    | cons b t2 =>
      cases t2 with
      | nil =>
        exfalso
        rw [hp] at h
        simp at h
      | cons c t3 => rfl

/-- C4 witness: a name in which the marker occurs twice splits into three
parts and is skipped without touching the state. -/
theorem c4_witness :
    3 ≤ (rustSplit "a@@GLIBC_1@@GLIBC_2" "@@GLIBC_").length ∧
    find_required_glibc_version "app" [some "a@@GLIBC_1@@GLIBC_2"] "/f" [] [] =
      ([], []) :=
  ⟨by decide,
    c4_symbol_tag_parsing.2.1 "app" "/f" [] [] "a@@GLIBC_1@@GLIBC_2" (by decide)⟩

/-- C6: two closure walks with distinct referrers that both fail to resolve
the same graph node leave exactly one record keyed by that node's declared
path, and both referrers' names sit in that single record's name set. -/
theorem c6_error_attribution_merge (fuel1 fuel2 : Nat) (r1 r2 name : String)
    (g : Graph) (scopes : List Path) (st0 : GState) (lib : Library)
    (hg : getLib g name = some lib) (hrp : lib.realpath = none)
    (hwf : countKey st0.errored lib.path ≤ 1) :
    ∃ k ns,
      lookupErr (gather_deps_paths (fuel2 + 1) r2 name g scopes
        (gather_deps_paths (fuel1 + 1) r1 name g scopes st0)).errored
        lib.path = some (k, ns) ∧
      r1 ∈ ns ∧ r2 ∈ ns ∧
      countKey (gather_deps_paths (fuel2 + 1) r2 name g scopes
        (gather_deps_paths (fuel1 + 1) r1 name g scopes st0)).errored
        lib.path = 1 := by
  rw [gather_deps_paths_unresolved hg hrp fuel1 r1 scopes st0]
  have hstart : ∃ k1 ns1,
      lookupErr (errInsert st0.errored lib.path "not_found" r1) lib.path =
        some (k1, ns1) ∧ r1 ∈ ns1 := by
    cases hl : lookupErr st0.errored lib.path with
    | none =>
      exact ⟨"not_found", [r1], lookupErr_errInsert_self_none hl "not_found" r1,
        List.mem_singleton.mpr rfl⟩
    | some x =>
      obtain ⟨k0, ns0⟩ := x
      exact ⟨k0, insertNew ns0 r1, lookupErr_errInsert_self_some hl "not_found" r1,
        mem_insertNew_self ns0 r1⟩
  obtain ⟨k1, ns1, hlk1, hr1⟩ := hstart
  have hc1 : countKey (errInsert st0.errored lib.path "not_found" r1) lib.path = 1 := by
    rw [countKey_errInsert_self]
    omega
  have hpres1 := gather_deps_paths_foldl_errPres fuel1 r1 g scopes lib.needed
    ⟨st0.paths, st0.visited, errInsert st0.errored lib.path "not_found" r1⟩
  obtain ⟨ns1b, hlk1b, hsub1⟩ := hpres1.1 lib.path k1 ns1 hlk1
  have hcs1le := hpres1.2 lib.path
  rw [hc1] at hcs1le
  have hcs1ge := countKey_pos_of_lookupErr hlk1b
  rw [gather_deps_paths_unresolved hg hrp fuel2 r2 scopes _]
  have hlk2 := lookupErr_errInsert_self_some hlk1b "not_found" r2
  have hc2 : countKey (errInsert
      (lib.needed.foldl (fun acc needed =>
        gather_deps_paths fuel1 r1 needed g scopes acc)
        ⟨st0.paths, st0.visited,
          errInsert st0.errored lib.path "not_found" r1⟩).errored
      lib.path "not_found" r2) lib.path = 1 := by
    rw [countKey_errInsert_self]
    omega
  have hpres2 := gather_deps_paths_foldl_errPres fuel2 r2 g scopes lib.needed
    ⟨(lib.needed.foldl (fun acc needed =>
        gather_deps_paths fuel1 r1 needed g scopes acc)
        ⟨st0.paths, st0.visited,
          errInsert st0.errored lib.path "not_found" r1⟩).paths,
      (lib.needed.foldl (fun acc needed =>
        gather_deps_paths fuel1 r1 needed g scopes acc)
        ⟨st0.paths, st0.visited,
          errInsert st0.errored lib.path "not_found" r1⟩).visited,
      errInsert
        (lib.needed.foldl (fun acc needed =>
          gather_deps_paths fuel1 r1 needed g scopes acc)
          ⟨st0.paths, st0.visited,
            errInsert st0.errored lib.path "not_found" r1⟩).errored
        lib.path "not_found" r2⟩
  obtain ⟨ns2, hlk2b, hsub2⟩ := hpres2.1 lib.path k1 (insertNew ns1b r2) hlk2
  refine ⟨k1, ns2, hlk2b, ?_, ?_, ?_⟩
  · exact hsub2 (subset_insertNew ns1b r2 (hsub1 hr1))
  · exact hsub2 (mem_insertNew_self ns1b r2)
  · have hge2 := countKey_pos_of_lookupErr hlk2b
    have hle2 := hpres2.2 lib.path
    rw [hc2] at hle2
    omega

/-- C6 witness: two roots "app1" and "app2" both fail to resolve X; the
single record for X's declared path carries both names. -/
theorem c6_witness :
    ∃ k ns,
      lookupErr (gather_deps_paths 10 "app2" "X" unresolvedParentGraph ["/"]
        (gather_deps_paths 10 "app1" "X" unresolvedParentGraph ["/"]
          ⟨[], [], []⟩)).errored "/declX" = some (k, ns) ∧
      "app1" ∈ ns ∧ "app2" ∈ ns ∧
      countKey (gather_deps_paths 10 "app2" "X" unresolvedParentGraph ["/"]
        (gather_deps_paths 10 "app1" "X" unresolvedParentGraph ["/"]
          ⟨[], [], []⟩)).errored "/declX" = 1 :=
  c6_error_attribution_merge 9 9 "app1" "app2" "X" unresolvedParentGraph ["/"]
    ⟨[], [], []⟩ ⟨"/declX", none, ["Y"]⟩ rfl rfl (by decide)

/-- C8: a failed symbol-name lookup makes the scan record an error with the
empty-string kind attributed to `referenced_by` and continue with the rest of
the table; a fresh record for the file has kind "" exactly; and a record of
kind "" contributes nothing to the cannot_parse/cannot_read/not_found
filtered reports while the catch-all report prints its lines. -/
theorem c8_empty_kind_symbol_error :
    (∀ (rb : String) (rest : SymTab) (f : Path) (w : Wants) (e : ErrorMap),
      find_required_glibc_version rb (none :: rest) f w e =
        find_required_glibc_version rb rest f w (errInsert e f "" rb)) ∧
    (∀ (e : ErrorMap) (f : Path) (rb : String), lookupErr e f = none →
      lookupErr (errInsert e f "" rb) f = some ("", [rb])) ∧
    (∀ (p : Path) (ns : List String) (e2 : ErrorMap),
      errorLinesKind "cannot_parse" ((p, "", ns) :: e2) =
        errorLinesKind "cannot_parse" e2 ∧
      errorLinesKind "cannot_read" ((p, "", ns) :: e2) =
        errorLinesKind "cannot_read" e2 ∧
      errorLinesKind "not_found" ((p, "", ns) :: e2) =
        errorLinesKind "not_found" e2 ∧
      errorLinesAll ((p, "", ns) :: e2) =
        ns.map (fun n => (p, "", n)) ++ errorLinesAll e2) := by
  refine ⟨fun rb rest f w e => rfl,
    fun e f rb h => lookupErr_errInsert_self_none h "" rb,
    fun p ns e2 => ⟨rfl, rfl, rfl, rfl⟩⟩

/-- C8 witness: the fresh-record conjunct at a concrete empty map. -/
theorem c8_witness :
    lookupErr ([] : ErrorMap) "/f" = none ∧
    lookupErr (errInsert [] "/f" "" "app") "/f" = some ("", ["app"]) :=
  ⟨rfl, c8_empty_kind_symbol_error.2.1 [] "/f" "app" rfl⟩

/-- C9: the run exits non-zero exactly when some user-supplied root path is a
key of the final error map; errors recorded only against non-root files never
make the run fail. -/
theorem c9_exit_iff_root_errored (rootPaths : List Path) (e : ErrorMap) :
    runFails rootPaths e = true ↔ ∃ r ∈ rootPaths, ∃ x ∈ e, x.1 = r := by
  simp only [runFails, Bool.and_eq_true, Bool.not_eq_true', List.any_eq_true,
    decide_eq_true_eq]
  constructor
  · rintro ⟨-, r, hr, x, hx, hxr⟩
    exact ⟨r, hr, x, hx, hxr⟩
  · rintro ⟨r, hr, x, hx, hxr⟩
    refine ⟨?_, r, hr, x, hx, hxr⟩
    cases e with
    | nil => cases hx
    | cons y ys => rfl

/-- C9 witness: a root that is itself an error key makes the run fail. -/
theorem c9_witness :
    runFails ["/a"] [("/a", "not_found", ["r"])] = true :=
  (c9_exit_iff_root_errored ["/a"] [("/a", "not_found", ["r"])]).mpr
    ⟨"/a", by simp, ("/a", "not_found", ["r"]), by simp, rfl⟩

/-- C10: once a record exists for a file path, any remainder of the run (all
three error sites included) leaves its kind exactly as first recorded and
only ever adds names to its referencing-name set. -/
theorem c10_first_error_kind_persists (fuel : Nat) (fsm : FsModel)
    (roots : List RootInput) (scopes : List Path) (rs : RunState)
    (p : Path) (k : String) (ns : List String)
    (h : lookupErr rs.errored p = some (k, ns)) :
    ∃ ns2, lookupErr (runAllFrom fuel fsm roots scopes rs).errored p =
      some (k, ns2) ∧ ns ⊆ ns2 :=
  (runAllFrom_errPres fuel fsm roots scopes rs).1 p k ns h

/-- C10 witness: a pre-existing cannot_read record for X's declared path
survives a run that records a not_found error on the same path: the kind
stays cannot_read and the old name is still present. -/
theorem c10_witness :
    ∃ ns2,
      lookupErr (runAllFrom 10 trivialFs [⟨"app", ["X"], unresolvedParentGraph⟩]
        ["/"] ⟨[], [], [("/declX", "cannot_read", ["old"])], []⟩).errored
        "/declX" = some ("cannot_read", ns2) ∧ ["old"] ⊆ ns2 :=
  c10_first_error_kind_persists 10 trivialFs
    [⟨"app", ["X"], unresolvedParentGraph⟩] ["/"]
    ⟨[], [], [("/declX", "cannot_read", ["old"])], []⟩ "/declX"
    "cannot_read" ["old"] rfl

end Lddcheck
